import Mathlib

/-!
Shallow embedding of the timegaps time-categorization core
(`timegaps/timediff.py` and `timegaps/timefilter.py`) and verification of
its specification claims.

Python `datetime.datetime` values are modelled at second granularity by the
`Datetime` structure; `datetime.date` subtraction and `weekday()` are
modelled through the standard civil-calendar day-numbering function
(`daysFromCivil`, days since 1970-01-01).  Python's floor division `//` by a
positive constant coincides with Lean's `Int` division `/` (Euclidean
division, which is floor division for positive divisors).
-/

/-- Model of a Python `datetime.datetime` (microseconds ignored; the spec and
claims speak at second granularity). -/
structure Datetime where
  year : Int
  month : Int
  day : Int
  hour : Int
  minute : Int
  second : Int
deriving DecidableEq, Repr

/-- Days since 1970-01-01 of a civil date (Howard Hinnant's `days_from_civil`
algorithm, the standard conversion used by calendar libraries); this models
Python `date` subtraction: `(d2 - d1).days = daysFromCivil d2 - daysFromCivil d1`. -/
def daysFromCivil (dt : Datetime) : Int :=
  let y : Int := dt.year - (if dt.month ≤ 2 then 1 else 0)
  let era : Int := Int.fdiv y 400
  let yoe : Int := y - era * 400
  let mp : Int := if 2 < dt.month then dt.month - 3 else dt.month + 9
  let doy : Int := (153 * mp + 2) / 5 + dt.day - 1
  let doe : Int := yoe * 365 + yoe / 4 - yoe / 100 + doy
  era * 146097 + doe - 719468

/-- Python `weekday()`: Monday = 0 … Sunday = 6.  1970-01-01 was a Thursday
(weekday 3). -/
def pyWeekday (dt : Datetime) : Int :=
  (daysFromCivil dt + 3) % 7

/-- Seconds within the day. -/
def secondOfDay (dt : Datetime) : Int :=
  dt.hour * 3600 + dt.minute * 60 + dt.second

/-- Seconds since the epoch; models comparison and subtraction of Python
`datetime` values (for valid field ranges the lexicographic field order of
Python equals this linear order). -/
def epochSeconds (dt : Datetime) : Int :=
  daysFromCivil dt * 86400 + secondOfDay dt

/-- The Python datetime fields are in their valid ranges relevant to
time-of-day arithmetic (Python enforces these at construction). -/
def Datetime.ValidTime (dt : Datetime) : Prop :=
  0 ≤ dt.hour ∧ dt.hour ≤ 23 ∧ 0 ≤ dt.minute ∧ dt.minute ≤ 59 ∧
    0 ≤ dt.second ∧ dt.second ≤ 59

namespace timediff

/-- `timediff.hours`: both datetimes are truncated to their full hour
(`datetime.combine(t.date(), time(hour=t.hour))`) and the difference in
seconds is floor-divided by 3600; since the truncated difference is an exact
multiple of 3600 this is the difference of absolute hour numbers. -/
def hours (t1 t2 : Datetime) : Int :=
  ((daysFromCivil t2 * 86400 + t2.hour * 3600) -
    (daysFromCivil t1 * 86400 + t1.hour * 3600)) / 3600

/-- `timediff.days`: difference of the calendar dates, in days. -/
def days (t1 t2 : Datetime) : Int :=
  daysFromCivil t2 - daysFromCivil t1

/-- `timediff.weeks`: each date is moved back to the Monday starting its
week (`date - timedelta(days=weekday())`) and the day difference is
floor-divided by 7. -/
def weeks (t1 t2 : Datetime) : Int :=
  ((daysFromCivil t2 - pyWeekday t2) - (daysFromCivil t1 - pyWeekday t1)) / 7

/-- `timediff.months`: calendar month difference. -/
def months (t1 t2 : Datetime) : Int :=
  (t2.year - t1.year) * 12 + (t2.month - t1.month)

/-- `timediff.years`: calendar year difference. -/
def years (t1 t2 : Datetime) : Int :=
  t2.year - t1.year

end timediff

/-- The fixed linear unit lengths the specification asserts, in seconds:
hour, day, week, month (30 days), year (365 days). -/
def linearUnit : Fin 5 → Int
  | 0 => 3600
  | 1 => 86400
  | 2 => 604800
  | 3 => 2592000
  | 4 => 31536000

/-- Modelled from the spec: the age field the specification describes, the
floor of the elapsed seconds divided by the fixed linear unit length. -/
def linearAge (t ref : Datetime) (u : Fin 5) : Int :=
  (epochSeconds ref - epochSeconds t) / linearUnit u

-- Sanity checks of the calendar model against known dates.
example : daysFromCivil ⟨1970, 1, 1, 0, 0, 0⟩ = 0 := by decide
example : daysFromCivil ⟨2016, 1, 3, 0, 0, 0⟩ = 16803 := by decide
example : pyWeekday ⟨2016, 1, 3, 0, 0, 0⟩ = 6 := by decide
example : pyWeekday ⟨2016, 1, 1, 0, 0, 0⟩ = 4 := by decide
example : daysFromCivil ⟨2016, 2, 29, 0, 0, 0⟩ - daysFromCivil ⟨2015, 3, 1, 0, 0, 0⟩ = 365 := by
  decide
example : daysFromCivil ⟨2016, 3, 1, 0, 0, 0⟩ - daysFromCivil ⟨2016, 2, 28, 0, 0, 0⟩ = 2 := by
  decide

/-- A filterable object (Python `FilterItem`): an opaque identity plus a
`moddate` timestamp.  Distinct Python objects are modelled by distinct
`ident` values; Python equality/hash by object identity is modelled by
structural equality on the pair. -/
structure Item where
  ident : Nat
  moddate : Datetime
deriving DecidableEq, Repr

/-- The `_Timedelta` record: the five independent age fields of an item
relative to the reference time. -/
structure Timedelta where
  hours : Int
  days : Int
  weeks : Int
  months : Int
  years : Int
deriving DecidableEq, Repr

/-- The field computations of `_Timedelta.__init__` (they are total; the
`t > ref` check is modelled separately by `mkTimedelta`). -/
def tdOf (ref : Datetime) (o : Item) : Timedelta :=
  { hours := timediff.hours o.moddate ref
    days := timediff.days o.moddate ref
    weeks := timediff.weeks o.moddate ref
    months := timediff.months o.moddate ref
    years := timediff.years o.moddate ref }

/-- `_Timedelta.__init__`: raises `_TimedeltaError` when `t > ref`,
otherwise computes the five fields. -/
def mkTimedelta (t ref : Datetime) : Except String Timedelta :=
  if epochSeconds ref < epochSeconds t then
    Except.error "Modification time not earlier than reference time."
  else
    Except.ok (tdOf ref ⟨0, t⟩)

/-- `TimeFilter.valid_categories`, in the fixed order old to young. -/
def validCategories : List String :=
  ["years", "months", "weeks", "days", "hours", "recent"]

/-- The validated `self.rules` mapping: all six categories present, in the
canonical order years, months, weeks, days, hours, recent (field order
models the `OrderedDict` order). -/
structure Rules where
  years : Int
  months : Int
  weeks : Int
  days : Int
  hours : Int
  recent : Int
deriving DecidableEq, Repr

/-- The rules as the ordered association list the `OrderedDict` holds. -/
def Rules.toList (r : Rules) : List (String × Int) :=
  [("years", r.years), ("months", r.months), ("weeks", r.weeks),
    ("days", r.days), ("hours", r.hours), ("recent", r.recent)]

/-- Python `userrules[label] if label in userrules else 0`. -/
def lookupOr0 (ur : List (String × Int)) (label : String) : Int :=
  match ur.find? (fun p => p.1 = label) with
  | some p => p.2
  | none => 0

/-- The per-entry validation loop of `TimeFilter.__init__`: raise on a
negative count or an invalid key. -/
def checkPairs : List (String × Int) → Except String Unit
  | [] => Except.ok ()
  | (label, count) :: rest =>
    if count < 0 then Except.error "count must be positive integer"
    else if ¬ (label ∈ validCategories) then Except.error "Invalid key in rules dictionary"
    else checkPairs rest

/-- Builds `self.rules` from the user rules, defaulting omitted categories
to 0, in canonical category order. -/
def buildRules (ur : List (String × Int)) : Rules :=
  { years := lookupOr0 ur "years"
    months := lookupOr0 ur "months"
    weeks := lookupOr0 ur "weeks"
    days := lookupOr0 ur "days"
    hours := lookupOr0 ur "hours"
    recent := lookupOr0 ur "recent" }

/-- `TimeFilter.__init__` policy validation: the user rules dictionary
(modelled as its item list) must be non-empty, contain no negative count,
no key outside `validCategories`, and at least one positive count. -/
def TimeFilter.init (ur : List (String × Int)) : Except String Rules :=
  if ur.isEmpty then
    Except.error "Rules dictionary must not be emtpy."
  else
    match checkPairs ur with
    | Except.error e => Except.error e
    | Except.ok _ =>
      if ur.any (fun p => 0 < p.2) then Except.ok (buildRules ur)
      else Except.error "at least one count > 0 required"

/-- The five bucketed categories (all categories except `recent`), as used
by the categorization scan. -/
inductive Cat where
  | years
  | months
  | weeks
  | days
  | hours
deriving DecidableEq, Repr

/-- The age field of a `_Timedelta` for a bucketed category
(`getattr(td, catlabel)`). -/
def catValue (td : Timedelta) : Cat → Int
  | Cat.years => td.years
  | Cat.months => td.months
  | Cat.weeks => td.weeks
  | Cat.days => td.days
  | Cat.hours => td.hours

/-- The requested count of a bucketed category (`self.rules[catlabel]`). -/
def ruleOf (r : Rules) : Cat → Int
  | Cat.years => r.years
  | Cat.months => r.months
  | Cat.weeks => r.weeks
  | Cat.days => r.days
  | Cat.hours => r.hours

/-- The categorization condition of the scan loop: the item is not recent
(`td.hours != 0`) and `0 < timecount <= self.rules[catlabel]` holds for
category `c`.  Because the loop body has no early exit, an item is appended
to the bucket of every category satisfying this condition. -/
def catPred (r : Rules) (ref : Datetime) (c : Cat) (o : Item) : Bool :=
  decide ((tdOf ref o).hours ≠ 0 ∧ 0 < catValue (tdOf ref o) c ∧
    catValue (tdOf ref o) c ≤ ruleOf r c)

/-- Membership condition of the category-timecount bucket `(c, n)`. -/
def bucketB (r : Rules) (ref : Datetime) (c : Cat) (n : Int) (o : Item) : Bool :=
  catPred r ref c o && decide (catValue (tdOf ref o) c = n)

/-- The items of bucket `(c, n)`, in input order: exactly the input items
satisfying the bucket condition. -/
def bucketItems (r : Rules) (ref : Datetime) (c : Cat) (n : Int) (objs : List Item) : List Item :=
  objs.filter (bucketB r ref c n)

/-- The sort key relation used by every `sort(key=lambda f: f.moddate)` in
`TimeFilter.filter`. -/
def modLe (x y : Item) : Prop :=
  epochSeconds x.moddate ≤ epochSeconds y.moddate

instance : DecidableRel modLe := fun x y =>
  inferInstanceAs (Decidable (epochSeconds x.moddate ≤ epochSeconds y.moddate))

instance : IsTotal Item modLe :=
  ⟨fun x y => Int.le_total (epochSeconds x.moddate) (epochSeconds y.moddate)⟩

instance : IsTrans Item modLe :=
  ⟨fun _ _ _ h h' => le_trans h h'⟩

instance : IsRefl Item modLe :=
  ⟨fun x => le_refl (epochSeconds x.moddate)⟩

/-- Python's stable `sort(key=lambda f: f.moddate)` (insertion sort with a
non-strict comparison is stable like Python's sort). -/
def sortByMod (l : List Item) : List Item :=
  List.insertionSort modLe l

/-- One category dictionary (`self._<cat>_dict`, a `defaultdict(list)`):
an association list from timecount to bucket list, in key-insertion order. -/
abbrev CatDict : Type := List (Int × List Item)

/-- Appending an item to `catdict[timecount]` of a `defaultdict(list)`:
extend the existing entry, or create a new entry at the end. -/
def dictInsert (d : CatDict) (n : Int) (o : Item) : CatDict :=
  match d with
  | [] => [(n, [o])]
  | (m, l) :: rest =>
    if m = n then (m, l ++ [o]) :: rest else (m, l) :: dictInsert rest n o

/-- Reading `catdict[timecount]` (empty when the key is absent). -/
def dictLookup (d : CatDict) (n : Int) : List Item :=
  match d with
  | [] => []
  | (m, l) :: rest => if m = n then l else dictLookup rest n

/-- The keys of a category dictionary, in insertion order. -/
def dictKeys (d : CatDict) : List Int :=
  d.map Prod.fst

/-- The per-call scratch state `filter` stores on the `TimeFilter` object:
the five `self._<cat>_dict` bucket dictionaries and `self._recent_items`. -/
structure Scratch where
  years : CatDict
  months : CatDict
  weeks : CatDict
  days : CatDict
  hours : CatDict
  recent : List Item
deriving Repr

/-- The freshly initialized scratch state (lines 92-94 of the source). -/
def Scratch.empty : Scratch :=
  ⟨[], [], [], [], [], []⟩

/-- The bucket dictionary of a scratch state for a given category. -/
def Scratch.dictOf (sc : Scratch) : Cat → CatDict
  | Cat.years => sc.years
  | Cat.months => sc.months
  | Cat.weeks => sc.weeks
  | Cat.days => sc.days
  | Cat.hours => sc.hours

/-- One step of the scan loop for a single category dictionary: append the
item to its timecount bucket when the categorization condition holds. -/
def stepDict (r : Rules) (ref : Datetime) (c : Cat) (d : CatDict) (o : Item) : CatDict :=
  if catPred r ref c o then dictInsert d (catValue (tdOf ref o) c) o else d

/-- Categorizing one object (the body of the `for obj in objs` loop): a
recent item (`td.hours == 0`) is appended to `self._recent_items` when the
recent rule is positive; otherwise every category whose condition holds
receives the item (the loop has no early exit). -/
def step (r : Rules) (ref : Datetime) (sc : Scratch) (o : Item) : Scratch :=
  if (tdOf ref o).hours = 0 then
    { sc with recent := if 0 < r.recent then sc.recent ++ [o] else sc.recent }
  else
    { years := stepDict r ref Cat.years sc.years o
      months := stepDict r ref Cat.months sc.months o
      weeks := stepDict r ref Cat.weeks sc.weeks o
      days := stepDict r ref Cat.days sc.days o
      hours := stepDict r ref Cat.hours sc.hours o
      recent := sc.recent }

/-- The categorization loop over all objects, from the fresh scratch state. -/
def buildScratch (r : Rules) (ref : Datetime) (objs : List Item) : Scratch :=
  objs.foldl (step r ref) Scratch.empty

/-- The survivors of one category dictionary: for each timecount bucket, in
key order, the newest element (`catdict[timecount].sort(...); [-1]`). -/
def dictSurvivors (d : CatDict) : List Item :=
  d.flatMap (fun p => ((sortByMod p.2).getLast?).toList)

/-- All bucket survivors, iterating the categories in the order of
`list(self.rules.keys())[:-1]` = years, months, weeks, days, hours. -/
def scratchSurvivors (sc : Scratch) : List Item :=
  dictSurvivors sc.years ++ dictSurvivors sc.months ++ dictSurvivors sc.weeks ++
    dictSurvivors sc.days ++ dictSurvivors sc.hours

/-- The accepted recent items: `self._recent_items` sorted by moddate, last
`self.rules["recent"]` entries (Python's `[-n:]` slice). -/
def recentAccepted (r : Rules) (recentItems : List Item) : List Item :=
  let rs := sortByMod recentItems
  rs.drop (rs.length - r.recent.toNat)

/-- The accepted output of a `filter` call: bucket survivors plus accepted
recent items, collected into a set (`dedup`) and returned sorted by
moddate. -/
def filterAccepted (r : Rules) (ref : Datetime) (objs : List Item) : List Item :=
  let sc := buildScratch r ref objs
  sortByMod ((recentAccepted r sc.recent ++ scratchSurvivors sc).dedup)

/-- The rejected output: the input items not in the accepted set, in
original input order (the list comprehension of line 157). -/
def filterRejected (r : Rules) (ref : Datetime) (objs : List Item) : List Item :=
  objs.filter (fun o => decide (¬ o ∈ filterAccepted r ref objs))

/-- An item whose `_Timedelta` construction succeeds (`moddate <= reftime`). -/
def goodItem (ref : Datetime) (o : Item) : Bool :=
  decide (epochSeconds o.moddate ≤ epochSeconds ref)

/-- `TimeFilter.filter`: raises (propagated as `TimeFilterError`) as soon as
an item's moddate is later than the reference time, otherwise returns the
`(accepted, rejected)` partition. -/
def TimeFilter.filter (r : Rules) (ref : Datetime) (objs : List Item) :
    Except String (List Item × List Item) :=
  if objs.all (goodItem ref) then
    Except.ok (filterAccepted r ref objs, filterRejected r ref objs)
  else
    Except.error "Cannot categorize: modification time not earlier than reference time."

/-- In-place sorting performed by the acceptance phase on the scratch lists
(`self._recent_items.sort(...)` and each `catdict[timecount].sort(...)`):
the state the scratch attributes are left in after a successful call. -/
def Scratch.sortAll (sc : Scratch) : Scratch :=
  { years := sc.years.map (fun p => (p.1, sortByMod p.2))
    months := sc.months.map (fun p => (p.1, sortByMod p.2))
    weeks := sc.weeks.map (fun p => (p.1, sortByMod p.2))
    days := sc.days.map (fun p => (p.1, sortByMod p.2))
    hours := sc.hours.map (fun p => (p.1, sortByMod p.2))
    recent := sortByMod sc.recent }

/-- The `filter` method as a state transformer on the `TimeFilter` object's
scratch attributes (`self._<cat>_dict`, `self._recent_items`): the method
overwrites whatever scratch state a previous call left (`prior`), and leaves
the freshly built (and, on success, sorted) scratch on the object when it
returns or raises. -/
def filterRun (r : Rules) (ref : Datetime) (prior : Option Scratch) (objs : List Item) :
    Option Scratch × Except String (List Item × List Item) :=
  if objs.all (goodItem ref) then
    (some (buildScratch r ref objs).sortAll,
      Except.ok (filterAccepted r ref objs, filterRejected r ref objs))
  else
    (some (buildScratch r ref (objs.takeWhile (goodItem ref))),
      Except.error "Cannot categorize: modification time not earlier than reference time.")

/-! ### Association-list dictionary lemmas -/

theorem dictLookup_insert (d : CatDict) (n : Int) (o : Item) (m : Int) :
    dictLookup (dictInsert d n o) m =
      dictLookup d m ++ (if n = m then [o] else []) := by
  induction d with
  | nil =>
    simp only [dictInsert, dictLookup]
    by_cases h : n = m <;> simp [h]
  | cons p rest ih =>
    obtain ⟨k, l⟩ := p
    simp only [dictInsert]
    by_cases hk : k = n
    · subst hk
      simp only [if_pos rfl, dictLookup]
      by_cases hm : k = m
      · subst hm
        simp
      · have : ¬ k = m := hm
        simp [dictLookup, this, fun h : k = m => hm h]
    · simp only [if_neg hk, dictLookup]
      by_cases hm : k = m
      · subst hm
        have : ¬ n = k := fun h => hk h.symm
        simp [this]
      · simp [hm, ih]

theorem mem_dictKeys_insert (d : CatDict) (n : Int) (o : Item) (m : Int) :
    m ∈ dictKeys (dictInsert d n o) ↔ m ∈ dictKeys d ∨ m = n := by
  induction d with
  | nil => simp [dictInsert, dictKeys]
  | cons p rest ih =>
    obtain ⟨k, l⟩ := p
    by_cases hk : k = n
    · subst hk
      simp [dictInsert, dictKeys, List.mem_cons]
      tauto
    · simp only [dictInsert, if_neg hk, dictKeys, List.map_cons, List.mem_cons] at ih ⊢
      rw [ih]
      tauto

theorem dictKeys_nodup_insert (d : CatDict) (n : Int) (o : Item)
    (h : (dictKeys d).Nodup) : (dictKeys (dictInsert d n o)).Nodup := by
  induction d with
  | nil => simp [dictInsert, dictKeys]
  | cons p rest ih =>
    obtain ⟨k, l⟩ := p
    simp only [dictKeys, List.map_cons, List.nodup_cons] at h
    obtain ⟨hk, hrest⟩ := h
    by_cases hkn : k = n
    · subst hkn
      show ((dictInsert ((k, l) :: rest) k o).map Prod.fst).Nodup
      rw [show dictInsert ((k, l) :: rest) k o = (k, l ++ [o]) :: rest by
        simp [dictInsert]]
      simpa using And.intro hk hrest
    · simp only [dictInsert, if_neg hkn, dictKeys, List.map_cons, List.nodup_cons]
      refine ⟨?_, ih hrest⟩
      intro hmem
      rcases (mem_dictKeys_insert rest n o k).mp hmem with h' | h'
      · exact hk h'
      · exact hkn h'

theorem dictLookup_eq_nil_of_not_mem_keys {d : CatDict} {n : Int}
    (h : ¬ n ∈ dictKeys d) : dictLookup d n = [] := by
  induction d with
  | nil => rfl
  | cons p rest ih =>
    obtain ⟨k, l⟩ := p
    simp only [dictKeys, List.map_cons, List.mem_cons] at h
    push_neg at h
    simp only [dictLookup]
    rw [if_neg (fun hkn : k = n => h.1 hkn.symm)]
    exact ih h.2

theorem entry_mem_of_mem_keys {d : CatDict} {n : Int} (h : n ∈ dictKeys d) :
    (n, dictLookup d n) ∈ d := by
  induction d with
  | nil => simp [dictKeys] at h
  | cons p rest ih =>
    obtain ⟨k, l⟩ := p
    simp only [dictKeys, List.map_cons, List.mem_cons] at h
    simp only [dictLookup]
    by_cases hk : k = n
    · subst hk
      simp
    · rw [if_neg hk]
      rcases h with h | h
      · exact absurd h.symm hk
      · exact List.mem_cons_of_mem _ (ih h)

theorem lookup_eq_of_entry_mem {d : CatDict} (hnd : (dictKeys d).Nodup)
    {p : Int × List Item} (hp : p ∈ d) : dictLookup d p.1 = p.2 := by
  induction d with
  | nil => simp at hp
  | cons q rest ih =>
    obtain ⟨k, l⟩ := q
    simp only [dictKeys, List.map_cons, List.nodup_cons] at hnd
    rcases List.mem_cons.mp hp with h | h
    · subst h
      simp [dictLookup]
    · simp only [dictLookup]
      have hk : ¬ k = p.1 := by
        intro hk
        exact hnd.1 (hk ▸ (List.mem_map_of_mem Prod.fst h))
      rw [if_neg hk]
      exact ih hnd.2 h

/-! ### Characterizing the built scratch state -/

theorem stepDict_lookup (r : Rules) (ref : Datetime) (c : Cat) (d : CatDict)
    (o : Item) (n : Int) :
    dictLookup (stepDict r ref c d o) n =
      dictLookup d n ++ (if bucketB r ref c n o then [o] else []) := by
  unfold stepDict
  by_cases hp : catPred r ref c o
  · rw [if_pos hp, dictLookup_insert]
    by_cases hv : catValue (tdOf ref o) c = n
    · rw [if_pos hv, if_pos]
      simp [bucketB, hp, hv]
    · rw [if_neg hv, if_neg]
      simp [bucketB, hv]
  · rw [if_neg hp, if_neg]
    · simp
    · simp [bucketB, hp]

theorem foldl_stepDict_lookup (r : Rules) (ref : Datetime) (c : Cat)
    (objs : List Item) (d : CatDict) (n : Int) :
    dictLookup (objs.foldl (stepDict r ref c) d) n =
      dictLookup d n ++ objs.filter (bucketB r ref c n) := by
  induction objs generalizing d with
  | nil => simp
  | cons o rest ih =>
    rw [List.foldl_cons, ih, stepDict_lookup]
    by_cases hb : bucketB r ref c n o
    · simp [List.filter_cons, hb]
    · simp [List.filter_cons, hb]

theorem mem_keys_stepDict (r : Rules) (ref : Datetime) (c : Cat) (d : CatDict)
    (o : Item) (m : Int) :
    m ∈ dictKeys (stepDict r ref c d o) ↔
      m ∈ dictKeys d ∨ bucketB r ref c m o = true := by
  unfold stepDict
  by_cases hp : catPred r ref c o
  · rw [if_pos hp, mem_dictKeys_insert]
    constructor
    · intro h
      rcases h with h | h
      · exact Or.inl h
      · refine Or.inr ?_
        simp [bucketB, hp, h.symm]
    · intro h
      rcases h with h | h
      · exact Or.inl h
      · refine Or.inr ?_
        simp only [bucketB, Bool.and_eq_true, decide_eq_true_eq] at h
        exact h.2.symm
  · rw [if_neg hp]
    constructor
    · exact Or.inl
    · intro h
      rcases h with h | h
      · exact h
      · simp only [bucketB, Bool.and_eq_true] at h
        exact absurd h.1 hp

theorem mem_keys_foldl_stepDict (r : Rules) (ref : Datetime) (c : Cat)
    (objs : List Item) (d : CatDict) (m : Int) :
    m ∈ dictKeys (objs.foldl (stepDict r ref c) d) ↔
      m ∈ dictKeys d ∨ ∃ o ∈ objs, bucketB r ref c m o = true := by
  induction objs generalizing d with
  | nil => simp
  | cons o rest ih =>
    rw [List.foldl_cons, ih, mem_keys_stepDict]
    simp only [List.mem_cons]
    constructor
    · intro h
      rcases h with (h | h) | ⟨o', ho', hb⟩
      · exact Or.inl h
      · exact Or.inr ⟨o, Or.inl rfl, h⟩
      · exact Or.inr ⟨o', Or.inr ho', hb⟩
    · intro h
      rcases h with h | ⟨o', ho', hb⟩
      · exact Or.inl (Or.inl h)
      · rcases ho' with h' | h'
        · exact Or.inl (Or.inr (h' ▸ hb))
        · exact Or.inr ⟨o', h', hb⟩

theorem keys_nodup_foldl_stepDict (r : Rules) (ref : Datetime) (c : Cat)
    (objs : List Item) (d : CatDict) (h : (dictKeys d).Nodup) :
    (dictKeys (objs.foldl (stepDict r ref c) d)).Nodup := by
  induction objs generalizing d with
  | nil => exact h
  | cons o rest ih =>
    rw [List.foldl_cons]
    refine ih _ ?_
    unfold stepDict
    by_cases hp : catPred r ref c o
    · rw [if_pos hp]
      exact dictKeys_nodup_insert _ _ _ h
    · rwa [if_neg hp]

theorem step_dictOf (r : Rules) (ref : Datetime) (sc : Scratch) (o : Item)
    (c : Cat) :
    (step r ref sc o).dictOf c = stepDict r ref c (sc.dictOf c) o := by
  unfold step
  by_cases hz : (tdOf ref o).hours = 0
  · rw [if_pos hz]
    have hnp : ¬ catPred r ref c o = true := by
      simp [catPred, hz]
    cases c <;> simp [Scratch.dictOf, stepDict, hnp]
  · rw [if_neg hz]
    cases c <;> rfl

theorem foldl_step_dictOf (r : Rules) (ref : Datetime) (objs : List Item)
    (sc : Scratch) (c : Cat) :
    ((objs.foldl (step r ref) sc).dictOf c) =
      objs.foldl (stepDict r ref c) (sc.dictOf c) := by
  induction objs generalizing sc with
  | nil => rfl
  | cons o rest ih =>
    rw [List.foldl_cons, List.foldl_cons, ih, step_dictOf]

/-- The recent list the categorization loop collects: the recent items
(in input order) when the recent rule is positive, nothing otherwise. -/
def recentFilter (r : Rules) (ref : Datetime) (objs : List Item) : List Item :=
  if 0 < r.recent then objs.filter (fun o => decide ((tdOf ref o).hours = 0)) else []

theorem step_recent (r : Rules) (ref : Datetime) (sc : Scratch) (o : Item) :
    (step r ref sc o).recent =
      sc.recent ++
        (if 0 < r.recent ∧ (tdOf ref o).hours = 0 then [o] else []) := by
  unfold step
  by_cases hz : (tdOf ref o).hours = 0
  · rw [if_pos hz]
    by_cases hr : 0 < r.recent
    · simp [hr, hz]
    · simp [hr, hz]
  · rw [if_neg hz]
    simp [hz]

theorem foldl_step_recent (r : Rules) (ref : Datetime) (objs : List Item)
    (sc : Scratch) :
    (objs.foldl (step r ref) sc).recent =
      sc.recent ++
        (if 0 < r.recent then
          objs.filter (fun o => decide ((tdOf ref o).hours = 0)) else []) := by
  induction objs generalizing sc with
  | nil => simp
  | cons o rest ih =>
    rw [List.foldl_cons, ih, step_recent]
    by_cases hr : 0 < r.recent
    · by_cases hz : (tdOf ref o).hours = 0
      · simp [hr, hz, List.filter_cons]
      · simp [hr, hz, List.filter_cons]
    · simp [hr]

theorem buildScratch_lookup (r : Rules) (ref : Datetime) (objs : List Item)
    (c : Cat) (n : Int) :
    dictLookup ((buildScratch r ref objs).dictOf c) n =
      bucketItems r ref c n objs := by
  unfold buildScratch bucketItems
  rw [foldl_step_dictOf, foldl_stepDict_lookup]
  cases c <;> simp [Scratch.empty, Scratch.dictOf, dictLookup]

theorem buildScratch_mem_keys (r : Rules) (ref : Datetime) (objs : List Item)
    (c : Cat) (n : Int) :
    n ∈ dictKeys ((buildScratch r ref objs).dictOf c) ↔
      ∃ o ∈ objs, bucketB r ref c n o = true := by
  unfold buildScratch
  rw [foldl_step_dictOf, mem_keys_foldl_stepDict]
  cases c <;> simp [Scratch.empty, Scratch.dictOf, dictKeys]

theorem buildScratch_keys_nodup (r : Rules) (ref : Datetime) (objs : List Item)
    (c : Cat) :
    (dictKeys ((buildScratch r ref objs).dictOf c)).Nodup := by
  unfold buildScratch
  rw [foldl_step_dictOf]
  refine keys_nodup_foldl_stepDict _ _ _ _ _ ?_
  cases c <;> simp [Scratch.empty, Scratch.dictOf, dictKeys]

theorem buildScratch_recent (r : Rules) (ref : Datetime) (objs : List Item) :
    (buildScratch r ref objs).recent = recentFilter r ref objs := by
  unfold buildScratch recentFilter
  rw [foldl_step_recent]
  simp [Scratch.empty]

/-! ### Sorting lemmas -/

theorem sortByMod_perm (l : List Item) : List.Perm (sortByMod l) l :=
  List.perm_insertionSort modLe l

theorem sortByMod_sorted (l : List Item) : List.Sorted modLe (sortByMod l) :=
  List.sorted_insertionSort modLe l

theorem sorted_getLast?_max {l : List Item} (hs : List.Sorted modLe l)
    {m : Item} (hm : l.getLast? = some m) : ∀ x ∈ l, modLe x m := by
  induction l with
  | nil => simp at hm
  | cons a rest ih =>
    intro x hx
    cases rest with
    | nil =>
      simp at hm hx
      subst hm
      subst hx
      exact le_refl _
    | cons b rest' =>
      rw [List.getLast?_cons_cons] at hm
      rcases List.mem_cons.mp hx with h | h
      · subst h
        have hb : modLe x b := (List.sorted_cons.mp hs).1 b (List.mem_cons_self _ _)
        have hbm : modLe b m :=
          ih (List.sorted_cons.mp hs).2 hm b (List.mem_cons_self _ _)
        exact le_trans hb hbm
      · exact ih (List.sorted_cons.mp hs).2 hm x h

theorem newest_spec {l : List Item} {m : Item}
    (hm : (sortByMod l).getLast? = some m) :
    m ∈ l ∧ ∀ x ∈ l, modLe x m := by
  have hmem : m ∈ sortByMod l := List.mem_of_mem_getLast? (by simp [hm])
  have hmax := sorted_getLast?_max (sortByMod_sorted l) hm
  refine ⟨(sortByMod_perm l).mem_iff.mp hmem, ?_⟩
  intro x hx
  exact hmax x ((sortByMod_perm l).mem_iff.mpr hx)

theorem newest_exists {l : List Item} (h : l ≠ []) :
    ∃ m, (sortByMod l).getLast? = some m := by
  have : sortByMod l ≠ [] := by
    intro hnil
    exact h ((sortByMod_perm l).symm.trans (hnil ▸ List.Perm.refl _)).eq_nil
  rcases Option.isSome_iff_exists.mp (List.getLast?_isSome.mpr this) with ⟨m, hm⟩
  exact ⟨m, hm⟩

/-- Key injectivity on a list of items: no two list elements carry the same
timestamp (the hypothesis under which tie-breaking questions vanish). -/
def KeyInj (l : List Item) : Prop :=
  ∀ x ∈ l, ∀ y ∈ l, epochSeconds x.moddate = epochSeconds y.moddate → x = y

theorem keyInj_of_sub {l l' : List Item} (h : KeyInj l)
    (hsub : ∀ x ∈ l', x ∈ l) : KeyInj l' :=
  fun x hx y hy hxy => h x (hsub x hx) y (hsub y hy) hxy

theorem keyInj_of_nodup_map {l : List Item}
    (h : (l.map (fun o => epochSeconds o.moddate)).Nodup) : KeyInj l := by
  intro x hx y hy hxy
  exact List.inj_on_of_nodup_map h hx hy hxy

theorem sorted_eq_of_perm {l1 l2 : List Item} (hp : List.Perm l1 l2)
    (hs1 : List.Sorted modLe l1) (hs2 : List.Sorted modLe l2)
    (hinj : KeyInj l1) : l1 = l2 := by
  induction l1 generalizing l2 with
  | nil => exact hp.symm.eq_nil.symm
  | cons a t1 ih =>
    cases l2 with
    | nil => exact absurd hp.eq_nil (by simp)
    | cons b t2 =>
      have hab : a = b := by
        have hamem : a ∈ b :: t2 := hp.mem_iff.mp (List.mem_cons_self _ _)
        have hbmem : b ∈ a :: t1 := hp.mem_iff.mpr (List.mem_cons_self _ _)
        have h1 : modLe b a ∨ a = b := by
          rcases List.mem_cons.mp hamem with h | h
          · exact Or.inr h
          · exact Or.inl ((List.sorted_cons.mp hs2).1 a h)
        have h2 : modLe a b ∨ b = a := by
          rcases List.mem_cons.mp hbmem with h | h
          · exact Or.inr h
          · exact Or.inl ((List.sorted_cons.mp hs1).1 b h)
        rcases h1 with h1 | h1
        · rcases h2 with h2 | h2
          · exact hinj a (List.mem_cons_self _ _) b hbmem (le_antisymm h2 h1)
          · exact h2.symm
        · exact h1
      subst hab
      have hpt : List.Perm t1 t2 := hp.cons_inv
      have := ih hpt (List.sorted_cons.mp hs1).2 (List.sorted_cons.mp hs2).2
        (fun x hx y hy hxy =>
          hinj x (List.mem_cons_of_mem _ hx) y (List.mem_cons_of_mem _ hy) hxy)
      rw [this]

theorem sortByMod_eq_of_perm {l1 l2 : List Item} (hp : List.Perm l1 l2)
    (hinj : KeyInj l1) : sortByMod l1 = sortByMod l2 := by
  refine sorted_eq_of_perm ?_ (sortByMod_sorted l1) (sortByMod_sorted l2) ?_
  · exact (sortByMod_perm l1).trans (hp.trans (sortByMod_perm l2).symm)
  · exact keyInj_of_sub hinj (fun x hx => (sortByMod_perm l1).mem_iff.mp hx)

/-! ### Membership characterization of the accepted set -/

theorem mem_dictSurvivors {d : CatDict} {x : Item} :
    x ∈ dictSurvivors d ↔ ∃ p ∈ d, (sortByMod p.2).getLast? = some x := by
  unfold dictSurvivors
  rw [List.mem_flatMap]
  constructor
  · rintro ⟨p, hp, hx⟩
    rw [Option.mem_toList, Option.mem_def] at hx
    exact ⟨p, hp, hx⟩
  · rintro ⟨p, hp, hx⟩
    exact ⟨p, hp, by rw [Option.mem_toList, Option.mem_def]; exact hx⟩

/-- The survivor of bucket `(c, n)` among the given objects: the newest
element of the bucket's item list. -/
def bucketNewest (r : Rules) (ref : Datetime) (c : Cat) (n : Int)
    (objs : List Item) : Option Item :=
  (sortByMod (bucketItems r ref c n objs)).getLast?

theorem mem_dictSurvivors_buildScratch {r : Rules} {ref : Datetime}
    {objs : List Item} {c : Cat} {x : Item} :
    x ∈ dictSurvivors ((buildScratch r ref objs).dictOf c) ↔
      ∃ n, bucketItems r ref c n objs ≠ [] ∧
        bucketNewest r ref c n objs = some x := by
  rw [mem_dictSurvivors]
  constructor
  · rintro ⟨p, hp, hx⟩
    have hkey : p.1 ∈ dictKeys ((buildScratch r ref objs).dictOf c) :=
      List.mem_map_of_mem Prod.fst hp
    have hlook : dictLookup ((buildScratch r ref objs).dictOf c) p.1 = p.2 :=
      lookup_eq_of_entry_mem (buildScratch_keys_nodup r ref objs c) hp
    have hbucket : p.2 = bucketItems r ref c p.1 objs := by
      rw [← hlook, buildScratch_lookup]
    refine ⟨p.1, ?_, ?_⟩
    · rcases (buildScratch_mem_keys r ref objs c p.1).mp hkey with ⟨o, ho, hb⟩
      intro hnil
      have : o ∈ bucketItems r ref c p.1 objs := List.mem_filter.mpr ⟨ho, hb⟩
      rw [hnil] at this
      exact absurd this (List.not_mem_nil o)
    · rw [bucketNewest, ← hbucket]
      exact hx
  · rintro ⟨n, hne, hx⟩
    have hex : ∃ o ∈ objs, bucketB r ref c n o = true := by
      rcases List.exists_mem_of_ne_nil _ hne with ⟨o, ho⟩
      rcases List.mem_filter.mp ho with ⟨ho1, ho2⟩
      exact ⟨o, ho1, ho2⟩
    have hkey : n ∈ dictKeys ((buildScratch r ref objs).dictOf c) :=
      (buildScratch_mem_keys r ref objs c n).mpr hex
    refine ⟨(n, dictLookup ((buildScratch r ref objs).dictOf c) n),
      entry_mem_of_mem_keys hkey, ?_⟩
    rw [buildScratch_lookup]
    exact hx

theorem mem_scratchSurvivors {r : Rules} {ref : Datetime} {objs : List Item}
    {x : Item} :
    x ∈ scratchSurvivors (buildScratch r ref objs) ↔
      ∃ c n, bucketItems r ref c n objs ≠ [] ∧
        bucketNewest r ref c n objs = some x := by
  unfold scratchSurvivors
  have hy := @mem_dictSurvivors_buildScratch r ref objs Cat.years x
  have hm := @mem_dictSurvivors_buildScratch r ref objs Cat.months x
  have hw := @mem_dictSurvivors_buildScratch r ref objs Cat.weeks x
  have hd := @mem_dictSurvivors_buildScratch r ref objs Cat.days x
  have hh := @mem_dictSurvivors_buildScratch r ref objs Cat.hours x
  simp only [Scratch.dictOf] at hy hm hw hd hh
  simp only [List.mem_append, hy, hm, hw, hd, hh]
  constructor
  · intro h
    rcases h with ((((⟨n, h⟩ | ⟨n, h⟩) | ⟨n, h⟩) | ⟨n, h⟩) | ⟨n, h⟩)
    · exact ⟨Cat.years, n, h⟩
    · exact ⟨Cat.months, n, h⟩
    · exact ⟨Cat.weeks, n, h⟩
    · exact ⟨Cat.days, n, h⟩
    · exact ⟨Cat.hours, n, h⟩
  · rintro ⟨c, n, h⟩
    cases c
    · exact Or.inl (Or.inl (Or.inl (Or.inl ⟨n, h⟩)))
    · exact Or.inl (Or.inl (Or.inl (Or.inr ⟨n, h⟩)))
    · exact Or.inl (Or.inl (Or.inr ⟨n, h⟩))
    · exact Or.inl (Or.inr ⟨n, h⟩)
    · exact Or.inr ⟨n, h⟩

theorem mem_filterAccepted {r : Rules} {ref : Datetime} {objs : List Item}
    {x : Item} :
    x ∈ filterAccepted r ref objs ↔
      x ∈ recentAccepted r (recentFilter r ref objs) ∨
        x ∈ scratchSurvivors (buildScratch r ref objs) := by
  unfold filterAccepted
  rw [(sortByMod_perm _).mem_iff, List.mem_dedup, List.mem_append,
    buildScratch_recent]

theorem recentFilter_sub {r : Rules} {ref : Datetime} {objs : List Item}
    {x : Item} (h : x ∈ recentFilter r ref objs) : x ∈ objs := by
  unfold recentFilter at h
  by_cases hr : 0 < r.recent
  · rw [if_pos hr] at h
    exact (List.mem_filter.mp h).1
  · rw [if_neg hr] at h
    exact absurd h (List.not_mem_nil x)

theorem recentAccepted_sub {r : Rules} {l : List Item} {x : Item}
    (h : x ∈ recentAccepted r l) : x ∈ l := by
  unfold recentAccepted at h
  have := List.mem_of_mem_drop h
  exact (sortByMod_perm l).mem_iff.mp this

theorem filterAccepted_sub {r : Rules} {ref : Datetime} {objs : List Item}
    {x : Item} (h : x ∈ filterAccepted r ref objs) : x ∈ objs := by
  rcases mem_filterAccepted.mp h with h | h
  · exact recentFilter_sub (recentAccepted_sub h)
  · rcases mem_scratchSurvivors.mp h with ⟨c, n, _, hx⟩
    have := (newest_spec hx).1
    exact (List.mem_filter.mp this).1

/-! ### Permutation invariance of the accepted output (under distinct keys) -/

theorem bucketNewest_eq_of_perm {r : Rules} {ref : Datetime}
    {objs objs' : List Item} (hp : List.Perm objs objs') (hinj : KeyInj objs)
    (c : Cat) (n : Int) :
    bucketNewest r ref c n objs = bucketNewest r ref c n objs' := by
  unfold bucketNewest bucketItems
  rw [sortByMod_eq_of_perm (hp.filter (bucketB r ref c n))
    (keyInj_of_sub hinj (fun x hx => (List.mem_filter.mp hx).1))]

theorem dictSurvivors_eq_filterMap (d : CatDict) (f : Int → List Item)
    (h : ∀ p ∈ d, p.2 = f p.1) :
    dictSurvivors d =
      (dictKeys d).filterMap (fun n => (sortByMod (f n)).getLast?) := by
  induction d with
  | nil => rfl
  | cons p rest ih =>
    have hp : p.2 = f p.1 := h p (List.mem_cons_self _ _)
    have hrest : dictSurvivors rest =
        (dictKeys rest).filterMap (fun n => (sortByMod (f n)).getLast?) :=
      ih (fun q hq => h q (List.mem_cons_of_mem _ hq))
    show ((sortByMod p.2).getLast?).toList ++ dictSurvivors rest = _
    rw [hp, hrest]
    show _ = List.filterMap (fun n => (sortByMod (f n)).getLast?) (p.1 :: dictKeys rest)
    rw [List.filterMap_cons]
    cases hlast : (sortByMod (f p.1)).getLast? with
    | none => simp
    | some m => simp

theorem dictSurvivors_perm_of_perm {r : Rules} {ref : Datetime}
    {objs objs' : List Item} (hp : List.Perm objs objs') (hinj : KeyInj objs)
    (c : Cat) :
    List.Perm (dictSurvivors ((buildScratch r ref objs).dictOf c))
      (dictSurvivors ((buildScratch r ref objs').dictOf c)) := by
  have h1 : dictSurvivors ((buildScratch r ref objs).dictOf c) =
      (dictKeys ((buildScratch r ref objs).dictOf c)).filterMap
        (fun n => bucketNewest r ref c n objs) := by
    refine dictSurvivors_eq_filterMap _ _ ?_
    intro p hpm
    rw [← lookup_eq_of_entry_mem (buildScratch_keys_nodup r ref objs c) hpm,
      buildScratch_lookup]
  have h2 : dictSurvivors ((buildScratch r ref objs').dictOf c) =
      (dictKeys ((buildScratch r ref objs').dictOf c)).filterMap
        (fun n => bucketNewest r ref c n objs') := by
    refine dictSurvivors_eq_filterMap _ _ ?_
    intro p hpm
    rw [← lookup_eq_of_entry_mem (buildScratch_keys_nodup r ref objs' c) hpm,
      buildScratch_lookup]
  rw [h1, h2]
  have hfun : (fun n => bucketNewest r ref c n objs) =
      (fun n => bucketNewest r ref c n objs') := by
    funext n
    exact bucketNewest_eq_of_perm hp hinj c n
  rw [hfun]
  refine List.Perm.filterMap _ ?_
  rw [List.perm_ext_iff_of_nodup (buildScratch_keys_nodup r ref objs c)
    (buildScratch_keys_nodup r ref objs' c)]
  intro n
  rw [buildScratch_mem_keys, buildScratch_mem_keys]
  constructor
  · rintro ⟨o, ho, hb⟩
    exact ⟨o, hp.mem_iff.mp ho, hb⟩
  · rintro ⟨o, ho, hb⟩
    exact ⟨o, hp.mem_iff.mpr ho, hb⟩

theorem scratchSurvivors_perm_of_perm {r : Rules} {ref : Datetime}
    {objs objs' : List Item} (hp : List.Perm objs objs') (hinj : KeyInj objs) :
    List.Perm (scratchSurvivors (buildScratch r ref objs))
      (scratchSurvivors (buildScratch r ref objs')) := by
  have hy := @dictSurvivors_perm_of_perm r ref objs objs' hp hinj Cat.years
  have hm := @dictSurvivors_perm_of_perm r ref objs objs' hp hinj Cat.months
  have hw := @dictSurvivors_perm_of_perm r ref objs objs' hp hinj Cat.weeks
  have hd := @dictSurvivors_perm_of_perm r ref objs objs' hp hinj Cat.days
  have hh := @dictSurvivors_perm_of_perm r ref objs objs' hp hinj Cat.hours
  simp only [Scratch.dictOf] at hy hm hw hd hh
  exact ((((hy.append hm).append hw).append hd).append hh)

theorem recentAccepted_eq_of_perm {r : Rules} {ref : Datetime}
    {objs objs' : List Item} (hp : List.Perm objs objs') (hinj : KeyInj objs) :
    recentAccepted r (recentFilter r ref objs) =
      recentAccepted r (recentFilter r ref objs') := by
  have hperm : List.Perm (recentFilter r ref objs) (recentFilter r ref objs') := by
    unfold recentFilter
    by_cases hr : 0 < r.recent
    · rw [if_pos hr, if_pos hr]
      exact hp.filter _
    · rw [if_neg hr, if_neg hr]
  have hsort : sortByMod (recentFilter r ref objs) =
      sortByMod (recentFilter r ref objs') :=
    sortByMod_eq_of_perm hperm
      (keyInj_of_sub hinj (fun x hx => recentFilter_sub hx))
  unfold recentAccepted
  rw [hsort]

theorem filterAccepted_eq_of_perm {r : Rules} {ref : Datetime}
    {objs objs' : List Item} (hp : List.Perm objs objs') (hinj : KeyInj objs) :
    filterAccepted r ref objs = filterAccepted r ref objs' := by
  show sortByMod ((recentAccepted r (buildScratch r ref objs).recent ++
      scratchSurvivors (buildScratch r ref objs)).dedup) =
    sortByMod ((recentAccepted r (buildScratch r ref objs').recent ++
      scratchSurvivors (buildScratch r ref objs')).dedup)
  rw [buildScratch_recent, buildScratch_recent]
  have hbig : List.Perm
      ((recentAccepted r (recentFilter r ref objs) ++
        scratchSurvivors (buildScratch r ref objs)).dedup)
      ((recentAccepted r (recentFilter r ref objs') ++
        scratchSurvivors (buildScratch r ref objs')).dedup) := by
    refine List.Perm.dedup ?_
    rw [recentAccepted_eq_of_perm hp hinj]
    exact List.Perm.append_left _ (scratchSurvivors_perm_of_perm hp hinj)
  refine sortByMod_eq_of_perm hbig ?_
  refine keyInj_of_sub hinj ?_
  intro x hx
  rcases List.mem_append.mp (List.mem_dedup.mp hx) with h | h
  · exact recentFilter_sub (recentAccepted_sub h)
  · rcases mem_scratchSurvivors.mp h with ⟨c, n, _, hxn⟩
    exact (List.mem_filter.mp (newest_spec hxn).1).1

theorem all_goodItem_of_perm {ref : Datetime} {objs objs' : List Item}
    (hp : List.Perm objs objs') :
    objs.all (goodItem ref) = objs'.all (goodItem ref) := by
  by_cases h : objs.all (goodItem ref) = true
  · rw [h]
    refine (List.all_eq_true.mpr ?_).symm
    intro x hx
    exact List.all_eq_true.mp h x (hp.mem_iff.mpr hx)
  · have h' : ¬ objs'.all (goodItem ref) = true := by
      intro hall
      exact h (List.all_eq_true.mpr
        (fun x hx => List.all_eq_true.mp hall x (hp.mem_iff.mp hx)))
    rw [Bool.eq_false_iff.mpr h, Bool.eq_false_iff.mpr h']

/-! ### The accepted recent items are the newest `recent`-count ones -/

theorem recentAccepted_length {r : Rules} {l : List Item}
    (hlen : r.recent.toNat ≤ l.length) :
    (recentAccepted r l).length = r.recent.toNat := by
  unfold recentAccepted
  rw [List.length_drop, (sortByMod_perm l).length_eq]
  omega

theorem recentAccepted_newest {r : Rules} {l : List Item} (hinj : KeyInj l) :
    ∀ a ∈ recentAccepted r l, ∀ y ∈ l, ¬ y ∈ recentAccepted r l →
      epochSeconds y.moddate < epochSeconds a.moddate := by
  intro a ha y hy hyn
  set rs := sortByMod l with hrs
  set k := rs.length - r.recent.toNat with hk
  have hysort : y ∈ rs := (sortByMod_perm l).mem_iff.mpr hy
  have hsplit : rs.take k ++ rs.drop k = rs := List.take_append_drop k rs
  have hytake : y ∈ rs.take k := by
    rcases List.mem_append.mp (by rw [hsplit]; exact hysort) with h | h
    · exact h
    · exact absurd h hyn
  have hsorted : List.Sorted modLe (rs.take k ++ rs.drop k) := by
    rw [hsplit]
    exact sortByMod_sorted l
  have hle : modLe y a :=
    (List.pairwise_append.mp hsorted).2.2 y hytake a ha
  have hne : y ≠ a := fun h => hyn (h ▸ ha)
  have hinj' : KeyInj rs :=
    keyInj_of_sub hinj (fun x hx => (sortByMod_perm l).mem_iff.mp hx)
  have hamem : a ∈ rs := List.mem_of_mem_drop ha
  rcases lt_or_eq_of_le hle with h | h
  · exact h
  · exact absurd (hinj' y hysort a hamem h) hne

theorem survivor_not_recent {r : Rules} {ref : Datetime} {objs : List Item}
    {x : Item} (hz : (tdOf ref x).hours = 0) :
    ¬ x ∈ scratchSurvivors (buildScratch r ref objs) := by
  intro h
  rcases mem_scratchSurvivors.mp h with ⟨c, n, _, hx⟩
  have hmem := (newest_spec hx).1
  have hb := (List.mem_filter.mp hmem).2
  simp only [bucketB, catPred, Bool.and_eq_true, decide_eq_true_eq] at hb
  exact hb.1.1 hz

theorem recent_mem_accepted_iff {r : Rules} {ref : Datetime} {objs : List Item}
    {x : Item} (hz : (tdOf ref x).hours = 0) :
    x ∈ filterAccepted r ref objs ↔
      x ∈ recentAccepted r (recentFilter r ref objs) := by
  rw [mem_filterAccepted]
  constructor
  · intro h
    rcases h with h | h
    · exact h
    · exact absurd h (survivor_not_recent hz)
  · exact Or.inl

theorem survivor_mem_accepted {r : Rules} {ref : Datetime} {objs : List Item}
    {c : Cat} {n : Int} {s : Item}
    (hne : bucketItems r ref c n objs ≠ [])
    (hs : bucketNewest r ref c n objs = some s) :
    s ∈ filterAccepted r ref objs :=
  mem_filterAccepted.mpr (Or.inr (mem_scratchSurvivors.mpr ⟨c, n, hne, hs⟩))

/-! ### Concrete scenarios used by the claims -/

/-- The reference time of the canonical first-claim-overlap scenario
(`test_10_days_2_weeks`): 2016-01-03 00:00, a Sunday. -/
def ref15 : Datetime := ⟨2016, 1, 3, 0, 0, 0⟩

/-- The 15 synthetic items aged exactly 1..15 days from `ref15`. -/
def items15 : List Item :=
  [⟨1, ⟨2016, 1, 2, 0, 0, 0⟩⟩, ⟨2, ⟨2016, 1, 1, 0, 0, 0⟩⟩, ⟨3, ⟨2015, 12, 31, 0, 0, 0⟩⟩,
    ⟨4, ⟨2015, 12, 30, 0, 0, 0⟩⟩, ⟨5, ⟨2015, 12, 29, 0, 0, 0⟩⟩, ⟨6, ⟨2015, 12, 28, 0, 0, 0⟩⟩,
    ⟨7, ⟨2015, 12, 27, 0, 0, 0⟩⟩, ⟨8, ⟨2015, 12, 26, 0, 0, 0⟩⟩, ⟨9, ⟨2015, 12, 25, 0, 0, 0⟩⟩,
    ⟨10, ⟨2015, 12, 24, 0, 0, 0⟩⟩, ⟨11, ⟨2015, 12, 23, 0, 0, 0⟩⟩, ⟨12, ⟨2015, 12, 22, 0, 0, 0⟩⟩,
    ⟨13, ⟨2015, 12, 21, 0, 0, 0⟩⟩, ⟨14, ⟨2015, 12, 20, 0, 0, 0⟩⟩, ⟨15, ⟨2015, 12, 19, 0, 0, 0⟩⟩]

/-- The policy `{days: 10, weeks: 2}` after validation (all other categories
default to 0). -/
def rules15 : Rules := ⟨0, 0, 2, 10, 0, 0⟩

/-- The item of `items15` aged exactly 7 days. -/
def item7 : Item := ⟨7, ⟨2015, 12, 27, 0, 0, 0⟩⟩

/-- Modelled from the spec (claim C1 wording): the assignment rule the claim
describes, which scans hours, days, weeks, months, years in that order and
stops at the first category whose window claims the item, so that an item is
assigned to at most one bucket. -/
def firstClaimBucket (r : Rules) (ref : Datetime) (o : Item) : Option (Cat × Int) :=
  if (tdOf ref o).hours = 0 then none
  else
    [Cat.hours, Cat.days, Cat.weeks, Cat.months, Cat.years].findSome? (fun c =>
      if 0 < catValue (tdOf ref o) c ∧ catValue (tdOf ref o) c ≤ ruleOf r c then
        some (c, catValue (tdOf ref o) c)
      else none)

/-! ### Claim C1 -/

/-- Claim C1, counterexample: the claim asserts that an item is assigned to
the bucket of the first matching category only and that scanning stops
there, so that every item lies in at most one bucket.  In the canonical
scenario (policy `{days: 10, weeks: 2}`, reference 2016-01-03) the item aged
7 days would then lie only in bucket `(days, 7)`; but the code's scan loop
has no early exit, and the built scratch state also holds this item in the
1-week bucket. -/
theorem C1_counterexample :
    firstClaimBucket rules15 ref15 item7 = some (Cat.days, 7) ∧
      item7 ∈ dictLookup ((buildScratch rules15 ref15 items15).weeks) 1 ∧
      item7 ∈ dictLookup ((buildScratch rules15 ref15 items15).days) 7 := by
  decide

/-- Claim C1, amended: for an item with nonzero hours age, the filter scans
all of hours, days, weeks, months, years and appends the item to the bucket
`(c, n)` of every category `c` whose age value `n` satisfies
`0 < n <= policy[c]` (there is no early exit, so an item can occupy several
buckets); nevertheless, for the 15 items aged exactly 1..15 days from
reference time 2016-01-03 under the policy `{days: 10, weeks: 2}`, exactly
11 of the 15 items are accepted. -/
theorem C1_theorem :
    (∀ (r : Rules) (ref : Datetime) (objs : List Item) (c : Cat) (n : Int) (o : Item),
      o ∈ dictLookup ((buildScratch r ref objs).dictOf c) n ↔
        o ∈ objs ∧ (tdOf ref o).hours ≠ 0 ∧ 0 < catValue (tdOf ref o) c ∧
          catValue (tdOf ref o) c = n ∧ n ≤ ruleOf r c) ∧
    (filterAccepted rules15 ref15 items15).length = 11 ∧
      (filterAccepted rules15 ref15 items15).map Item.ident =
        [14, 10, 9, 8, 7, 6, 5, 4, 3, 2, 1] := by
  refine ⟨?_, by decide, by decide⟩
  intro r ref objs c n o
  rw [buildScratch_lookup]
  unfold bucketItems
  rw [List.mem_filter]
  simp only [bucketB, catPred, Bool.and_eq_true, decide_eq_true_eq]
  constructor
  · rintro ⟨ho, ⟨⟨hz, hpos, hle⟩, hval⟩⟩
    exact ⟨ho, hz, hval ▸ hpos, hval, hval ▸ hle⟩
  · rintro ⟨ho, hz, hpos, hval, hle⟩
    exact ⟨ho, ⟨⟨hz, hval.symm ▸ hpos, hval.symm ▸ hle⟩, hval⟩⟩

/-! ### Claim C2 -/

/-- Claim C2, counterexample: the age fields are not the floor of elapsed
seconds over fixed linear units.  At 07:59 vs 08:00 of the same day the
hours field is 1 although only 60 seconds elapsed (linear floor 0); between
2015-03-01 and 2016-02-29 (365 elapsed days) the weeks field is 53 (linear
floor 52) and the months field is 11 (linear floor 12). -/
theorem C2_counterexample :
    timediff.hours ⟨1915, 2, 24, 7, 59, 0⟩ ⟨1915, 2, 24, 8, 0, 0⟩ = 1 ∧
      linearAge ⟨1915, 2, 24, 7, 59, 0⟩ ⟨1915, 2, 24, 8, 0, 0⟩ 0 = 0 ∧
      timediff.weeks ⟨2015, 3, 1, 0, 0, 0⟩ ⟨2016, 2, 29, 0, 0, 0⟩ = 53 ∧
      linearAge ⟨2015, 3, 1, 0, 0, 0⟩ ⟨2016, 2, 29, 0, 0, 0⟩ 2 = 52 ∧
      timediff.months ⟨2015, 3, 1, 0, 0, 0⟩ ⟨2016, 2, 29, 0, 0, 0⟩ = 11 ∧
      linearAge ⟨2015, 3, 1, 0, 0, 0⟩ ⟨2016, 2, 29, 0, 0, 0⟩ 3 = 12 := by
  decide

/-- Claim C2, amended: the five age fields are calendar-aware, not linear:
hours is the difference of hour-truncated times in hours, days the calendar
date difference, weeks the Monday-aligned week-start difference divided
by 7, months is `12 * (year difference) + month difference` and years the
year difference.  For valid times with `t <= ref`, each of the hours, days
and weeks fields equals the linear floor of the claim or that floor plus
one; the months and years fields have no fixed relation to the linear
floors. -/
theorem C2_theorem (t ref : Datetime) (ht : t.ValidTime)
    (href : ref.ValidTime) (hle : epochSeconds t ≤ epochSeconds ref) :
    (timediff.hours t ref = linearAge t ref 0 ∨
      timediff.hours t ref = linearAge t ref 0 + 1) ∧
    (timediff.days t ref = linearAge t ref 1 ∨
      timediff.days t ref = linearAge t ref 1 + 1) ∧
    (timediff.weeks t ref = linearAge t ref 2 ∨
      timediff.weeks t ref = linearAge t ref 2 + 1) ∧
    timediff.months t ref = (ref.year - t.year) * 12 + (ref.month - t.month) ∧
    timediff.years t ref = ref.year - t.year := by
  have h0 : linearAge t ref 0 = (epochSeconds ref - epochSeconds t) / 3600 := rfl
  have h1 : linearAge t ref 1 = (epochSeconds ref - epochSeconds t) / 86400 := rfl
  have h2 : linearAge t ref 2 = (epochSeconds ref - epochSeconds t) / 604800 := rfl
  rw [h0, h1, h2]
  unfold timediff.hours timediff.days timediff.weeks timediff.months timediff.years
    epochSeconds secondOfDay pyWeekday at *
  unfold Datetime.ValidTime at ht href
  refine ⟨?_, ?_, ?_, rfl, rfl⟩ <;> omega

instance (dt : Datetime) : Decidable dt.ValidTime := by
  unfold Datetime.ValidTime
  infer_instance

/-- Witness for the amended claim C2 at the concrete pair
2015-03-01 / 2016-02-29. -/
theorem C2_witness :
    Datetime.ValidTime ⟨2015, 3, 1, 0, 0, 0⟩ ∧
      Datetime.ValidTime ⟨2016, 2, 29, 0, 0, 0⟩ ∧
      epochSeconds ⟨2015, 3, 1, 0, 0, 0⟩ ≤ epochSeconds ⟨2016, 2, 29, 0, 0, 0⟩ ∧
      ((timediff.hours ⟨2015, 3, 1, 0, 0, 0⟩ ⟨2016, 2, 29, 0, 0, 0⟩ =
          linearAge ⟨2015, 3, 1, 0, 0, 0⟩ ⟨2016, 2, 29, 0, 0, 0⟩ 0 ∨
        timediff.hours ⟨2015, 3, 1, 0, 0, 0⟩ ⟨2016, 2, 29, 0, 0, 0⟩ =
          linearAge ⟨2015, 3, 1, 0, 0, 0⟩ ⟨2016, 2, 29, 0, 0, 0⟩ 0 + 1) ∧
      (timediff.days ⟨2015, 3, 1, 0, 0, 0⟩ ⟨2016, 2, 29, 0, 0, 0⟩ =
          linearAge ⟨2015, 3, 1, 0, 0, 0⟩ ⟨2016, 2, 29, 0, 0, 0⟩ 1 ∨
        timediff.days ⟨2015, 3, 1, 0, 0, 0⟩ ⟨2016, 2, 29, 0, 0, 0⟩ =
          linearAge ⟨2015, 3, 1, 0, 0, 0⟩ ⟨2016, 2, 29, 0, 0, 0⟩ 1 + 1) ∧
      (timediff.weeks ⟨2015, 3, 1, 0, 0, 0⟩ ⟨2016, 2, 29, 0, 0, 0⟩ =
          linearAge ⟨2015, 3, 1, 0, 0, 0⟩ ⟨2016, 2, 29, 0, 0, 0⟩ 2 ∨
        timediff.weeks ⟨2015, 3, 1, 0, 0, 0⟩ ⟨2016, 2, 29, 0, 0, 0⟩ =
          linearAge ⟨2015, 3, 1, 0, 0, 0⟩ ⟨2016, 2, 29, 0, 0, 0⟩ 2 + 1) ∧
      timediff.months ⟨2015, 3, 1, 0, 0, 0⟩ ⟨2016, 2, 29, 0, 0, 0⟩ =
        ((2016 : Int) - 2015) * 12 + ((2 : Int) - 3) ∧
      timediff.years ⟨2015, 3, 1, 0, 0, 0⟩ ⟨2016, 2, 29, 0, 0, 0⟩ =
        (2016 : Int) - 2015) :=
  ⟨by decide, by decide, by decide,
    C2_theorem ⟨2015, 3, 1, 0, 0, 0⟩ ⟨2016, 2, 29, 0, 0, 0⟩
      (by decide) (by decide) (by decide)⟩

/-! ### Claim C3 -/

/-- Reference time 2016-01-01 12:30 for the tie-breaking counterexample. -/
def refC3 : Datetime := ⟨2016, 1, 1, 12, 30, 0⟩

/-- Two distinct items carrying the same timestamp (one hour old). -/
def aC3 : Item := ⟨1, ⟨2016, 1, 1, 11, 0, 0⟩⟩

/-- Second item with the identical timestamp. -/
def bC3 : Item := ⟨2, ⟨2016, 1, 1, 11, 0, 0⟩⟩

/-- The policy `{hours: 1}` after validation. -/
def rulesH1 : Rules := ⟨0, 0, 0, 0, 1, 0⟩

/-- Claim C3, counterexample: with two distinct items sharing one timestamp
and policy `{hours: 1}`, both land in the bucket `(hours, 1)`; the stable
sort keeps them in input order and the bucket survivor is the later one in
input order, so permuting the input changes the accepted set. -/
theorem C3_counterexample :
    List.Perm [aC3, bC3] [bC3, aC3] ∧ aC3 ≠ bC3 ∧
      filterAccepted rulesH1 refC3 [aC3, bC3] = [bC3] ∧
      filterAccepted rulesH1 refC3 [bC3, aC3] = [aC3] := by
  decide

/-- Claim C3, amended: provided the items carry pairwise distinct
timestamps, applying `filter` to any permutation of the input sequence
yields the same accepted output (even as a list), and a successful call
stays successful with the identical accepted component. -/
theorem C3_theorem (r : Rules) (ref : Datetime) (objs objs' : List Item)
    (hp : List.Perm objs objs')
    (hinj : (objs.map (fun o => epochSeconds o.moddate)).Nodup) :
    filterAccepted r ref objs = filterAccepted r ref objs' ∧
      ∀ acc rej, TimeFilter.filter r ref objs = Except.ok (acc, rej) →
        ∃ rej', TimeFilter.filter r ref objs' = Except.ok (acc, rej') := by
  have hinj' := keyInj_of_nodup_map hinj
  have hacc := @filterAccepted_eq_of_perm r ref objs objs' hp hinj'
  refine ⟨hacc, ?_⟩
  intro acc rej h
  unfold TimeFilter.filter at h ⊢
  by_cases hall : objs.all (goodItem ref) = true
  · rw [if_pos hall] at h
    cases h
    rw [if_pos (all_goodItem_of_perm hp ▸ hall)]
    exact ⟨filterRejected r ref objs', by rw [hacc]⟩
  · rw [if_neg hall] at h
    exact absurd h (by simp)

/-- Two items at distinct timestamps used to witness the amended claim C3. -/
def wa : Item := ⟨1, ⟨2016, 1, 1, 11, 0, 0⟩⟩

/-- The second witness item, half an hour older. -/
def wb : Item := ⟨2, ⟨2016, 1, 1, 10, 30, 0⟩⟩

/-- The policy `{hours: 2}` after validation. -/
def rulesW : Rules := ⟨0, 0, 0, 0, 2, 0⟩

/-- Witness for the amended claim C3: swapping two distinct-timestamp items
leaves the accepted output unchanged. -/
theorem C3_witness :
    ∃ rej', TimeFilter.filter rulesW refC3 [wb, wa] =
      Except.ok (filterAccepted rulesW refC3 [wa, wb], rej') :=
  (C3_theorem rulesW refC3 [wa, wb] [wb, wa] (by decide) (by decide)).2
    (filterAccepted rulesW refC3 [wa, wb])
    (filterRejected rulesW refC3 [wa, wb]) rfl

/-! ### Claim C4 -/

/-- Claim C4, counterexample: the claim asserts that a call retains no state
on the `TimeFilter` object after returning and that the per-call bucket
structures are discarded; but after a (successful) call on one item the
scratch bucket attributes are still present on the object. -/
theorem C4_counterexample :
    ((filterRun rulesH1 refC3 none [aC3]).1).isSome = true := by
  decide

/-- Claim C4, amended: the result of `filter` is a pure function of the
policy, the reference time and the item sequence: the scratch bucket
structures are overwritten with freshly built ones on every invocation, so
whatever state a previous call left on the object has no effect on the
result or on the new post-call state, and repeated calls with the same
inputs return the same result.  However, the per-call bucket structures are
not discarded: they remain stored on the `TimeFilter` object after the call
returns. -/
theorem C4_theorem (r : Rules) (ref : Datetime) (objs : List Item)
    (prior prior' : Option Scratch) :
    (filterRun r ref prior objs).2 = TimeFilter.filter r ref objs ∧
      (filterRun r ref prior objs).1 = (filterRun r ref prior' objs).1 ∧
      (filterRun r ref prior objs).1 =
        some (if objs.all (goodItem ref) then (buildScratch r ref objs).sortAll
          else buildScratch r ref (objs.takeWhile (goodItem ref))) := by
  unfold filterRun TimeFilter.filter
  by_cases hall : objs.all (goodItem ref) = true
  · simp [hall]
  · simp [hall]

/-! ### Claim C5 -/

/-- Claim C5: on every successful `filter` call, accepted and rejected
partition the input: every input item is accepted or rejected, no item is
both, and the rejected output is exactly the input items not accepted,
in original input order (the filtering list comprehension of the source). -/
theorem C5_theorem (r : Rules) (ref : Datetime) (objs acc rej : List Item)
    (h : TimeFilter.filter r ref objs = Except.ok (acc, rej)) :
    (∀ x, x ∈ objs ↔ x ∈ acc ∨ x ∈ rej) ∧
      (∀ x, ¬ (x ∈ acc ∧ x ∈ rej)) ∧
      rej = objs.filter (fun o => decide (¬ o ∈ acc)) := by
  unfold TimeFilter.filter at h
  by_cases hall : objs.all (goodItem ref) = true
  · rw [if_pos hall] at h
    cases h
    refine ⟨?_, ?_, rfl⟩
    · intro x
      constructor
      · intro hx
        by_cases hacc : x ∈ filterAccepted r ref objs
        · exact Or.inl hacc
        · refine Or.inr (List.mem_filter.mpr ⟨hx, ?_⟩)
          simp [hacc]
      · intro hx
        rcases hx with hx | hx
        · exact filterAccepted_sub hx
        · exact (List.mem_filter.mp hx).1
    · rintro x ⟨hxa, hxr⟩
      have hdec := (List.mem_filter.mp hxr).2
      simp only [decide_eq_true_eq] at hdec
      exact hdec hxa
  · rw [if_neg hall] at h
    exact absurd h (by simp)

/-- Reference time used by the recent-category scenarios. -/
def refR : Datetime := ⟨2016, 12, 31, 12, 35, 0⟩

/-- Three recent items, 1, 2 and 3 minutes old. -/
def itemsR : List Item :=
  [⟨1, ⟨2016, 12, 31, 12, 34, 0⟩⟩, ⟨2, ⟨2016, 12, 31, 12, 33, 0⟩⟩,
    ⟨3, ⟨2016, 12, 31, 12, 32, 0⟩⟩]

/-- The policy `{recent: 2}` after validation. -/
def rulesR : Rules := ⟨0, 0, 0, 0, 0, 2⟩

/-- Witness for claim C5 on the concrete recent-category scenario. -/
theorem C5_witness :
    (∀ x, x ∈ itemsR ↔
      x ∈ filterAccepted rulesR refR itemsR ∨ x ∈ filterRejected rulesR refR itemsR) ∧
      (∀ x, ¬ (x ∈ filterAccepted rulesR refR itemsR ∧
        x ∈ filterRejected rulesR refR itemsR)) ∧
      filterRejected rulesR refR itemsR =
        itemsR.filter (fun o => decide (¬ o ∈ filterAccepted rulesR refR itemsR)) :=
  C5_theorem rulesR refR itemsR (filterAccepted rulesR refR itemsR)
    (filterRejected rulesR refR itemsR) rfl

/-! ### Claim C6 -/

theorem checkPairs_ok_iff (ur : List (String × Int)) :
    checkPairs ur = Except.ok () ↔
      ∀ p ∈ ur, ¬ p.2 < 0 ∧ p.1 ∈ validCategories := by
  induction ur with
  | nil => simp [checkPairs]
  | cons p rest ih =>
    obtain ⟨label, count⟩ := p
    unfold checkPairs
    by_cases hneg : count < 0
    · rw [if_pos hneg]
      constructor
      · intro h
        exact absurd h (by simp)
      · intro h
        exact absurd hneg (h (label, count) (List.mem_cons_self _ _)).1
    · rw [if_neg hneg]
      by_cases hmem : label ∈ validCategories
      · rw [if_neg (by simp [hmem])]
        constructor
        · intro h q hq
          rcases List.mem_cons.mp hq with hq | hq
          · subst hq
            exact ⟨hneg, hmem⟩
          · exact ih.mp h q hq
        · intro h
          exact ih.mpr (fun q hq => h q (List.mem_cons_of_mem _ hq))
      · rw [if_pos (by simp [hmem])]
        constructor
        · intro h
          exact absurd h (by simp)
        · intro h
          exact absurd (h (label, count) (List.mem_cons_self _ _)).2 hmem

/-- Claim C6: policy construction fails exactly when the supplied mapping is
empty, contains a negative count, contains a key outside the six-category
set, or has all counts equal to 0; on success it produces the ordered
structure holding all six categories in canonical order with unspecified
categories defaulted to 0. -/
theorem C6_theorem (ur : List (String × Int)) :
    ((TimeFilter.init ur).isOk = true ↔
      ¬ (ur = [] ∨ (∃ p ∈ ur, p.2 < 0) ∨
          (∃ p ∈ ur, ¬ p.1 ∈ validCategories) ∨ ∀ p ∈ ur, p.2 = 0)) ∧
      ∀ rls, TimeFilter.init ur = Except.ok rls →
        rls.toList = validCategories.map (fun lab => (lab, lookupOr0 ur lab)) ∧
          ∀ lab, (∀ p ∈ ur, p.1 ≠ lab) → lookupOr0 ur lab = 0 := by
  have hlook : ∀ lab, (∀ p ∈ ur, p.1 ≠ lab) → lookupOr0 ur lab = 0 := by
    intro lab hlab
    unfold lookupOr0
    rw [List.find?_eq_none.mpr]
    intro q hq
    simp only [decide_eq_true_eq]
    exact hlab q hq
  unfold TimeFilter.init
  by_cases hemp : ur.isEmpty
  · rw [if_pos hemp]
    have hnil : ur = [] := List.isEmpty_iff.mp hemp
    refine ⟨?_, ?_⟩
    · constructor
      · intro h
        exact absurd h (by simp [Except.isOk, Except.toBool])
      · intro h
        exact absurd (Or.inl hnil) h
    · intro rls h
      exact absurd h (by simp)
  · rw [if_neg hemp]
    have hne : ¬ ur = [] := fun h => hemp (by simp [h])
    cases hcp : checkPairs ur with
    | error e =>
      have hbad : ¬ ∀ p ∈ ur, ¬ p.2 < 0 ∧ p.1 ∈ validCategories := by
        intro hok
        rw [← checkPairs_ok_iff] at hok
        rw [hcp] at hok
        exact absurd hok (by simp)
      refine ⟨?_, ?_⟩
      · constructor
        · intro h
          exact absurd h (by simp [Except.isOk, Except.toBool])
        · intro h
          exfalso
          apply h
          push_neg at hbad
          rcases hbad with ⟨p, hp, hpbad⟩
          by_cases hpneg : p.2 < 0
          · exact Or.inr (Or.inl ⟨p, hp, hpneg⟩)
          · exact Or.inr (Or.inr (Or.inl ⟨p, hp, hpbad (by omega)⟩))
      · intro rls h
        exact absurd h (by simp)
    | ok u =>
      obtain ⟨⟩ := u
      have hgood : ∀ p ∈ ur, ¬ p.2 < 0 ∧ p.1 ∈ validCategories :=
        (checkPairs_ok_iff ur).mp hcp
      by_cases hpos : ur.any (fun p => 0 < p.2) = true
      · rw [if_pos hpos]
        refine ⟨?_, ?_⟩
        · constructor
          · intro _ hdisj
            rcases hdisj with h | h | h | h
            · exact hne h
            · rcases h with ⟨p, hp, hpneg⟩
              exact (hgood p hp).1 hpneg
            · rcases h with ⟨p, hp, hpinv⟩
              exact hpinv (hgood p hp).2
            · rcases List.any_eq_true.mp hpos with ⟨p, hp, hppos⟩
              simp only [decide_eq_true_eq] at hppos
              have := h p hp
              omega
          · intro _
            rfl
        · intro rls h
          have hrls : buildRules ur = rls := by
            injection h
          subst hrls
          exact ⟨rfl, hlook⟩
      · rw [if_neg hpos]
        refine ⟨?_, ?_⟩
        · constructor
          · intro h
            exact absurd h (by simp [Except.isOk, Except.toBool])
          · intro h
            exfalso
            apply h
            refine Or.inr (Or.inr (Or.inr ?_))
            intro p hp
            have h1 := (hgood p hp).1
            have h2 : ¬ 0 < p.2 := by
              intro hc
              exact hpos (List.any_eq_true.mpr ⟨p, hp, by simp [hc]⟩)
            omega
        · intro rls h
          exact absurd h (by simp)

/-- Witness for claim C6: the policy `{days: 10}` validates successfully and
yields the canonical six-category structure with the other five counts
defaulted to 0. -/
theorem C6_witness :
    Rules.toList ⟨0, 0, 0, 10, 0, 0⟩ =
      validCategories.map (fun lab => (lab, lookupOr0 [("days", 10)] lab)) ∧
      ∀ lab, (∀ p ∈ [("days", (10 : Int))], p.1 ≠ lab) →
        lookupOr0 [("days", 10)] lab = 0 :=
  (C6_theorem [("days", 10)]).2 ⟨0, 0, 0, 10, 0, 0⟩ rfl

/-! ### Claim C7 -/

/-- Claim C7: age computation fails with a `TimeOrderError` exactly when the
item timestamp is strictly later than the reference time (even by one
second), and a `filter` call succeeds exactly when no input item is in the
future — otherwise the whole call aborts with the error and no partition is
returned (the result is an error value, not a partial partition). -/
theorem C7_theorem (t ref : Datetime) (r : Rules) (objs : List Item) :
    ((mkTimedelta t ref).isOk = true ↔ epochSeconds t ≤ epochSeconds ref) ∧
      ((TimeFilter.filter r ref objs).isOk = true ↔
        ∀ o ∈ objs, epochSeconds o.moddate ≤ epochSeconds ref) := by
  constructor
  · unfold mkTimedelta
    by_cases h : epochSeconds ref < epochSeconds t
    · rw [if_pos h]
      constructor
      · intro hh
        exact absurd hh (by simp [Except.isOk, Except.toBool])
      · intro hh
        omega
    · rw [if_neg h]
      constructor
      · intro _
        omega
      · intro _
        rfl
  · unfold TimeFilter.filter
    by_cases h : objs.all (goodItem ref) = true
    · rw [if_pos h]
      constructor
      · intro _ o ho
        have := List.all_eq_true.mp h o ho
        simpa [goodItem] using this
      · intro _
        rfl
    · rw [if_neg h]
      constructor
      · intro hh
        exact absurd hh (by simp [Except.isOk, Except.toBool])
      · intro hall
        exfalso
        apply h
        rw [List.all_eq_true]
        intro o ho
        simp only [goodItem, decide_eq_true_eq]
        exact hall o ho

/-! ### Claim C8 -/

/-- Claim C8: an item whose hours age is 0 is never placed in any category
bucket and can only be accepted through the recent rule; when
`policy[recent]` is 0 it is never accepted.  Among the collected recent
items (under pairwise distinct timestamps and at least `policy[recent]` of
them), exactly `policy[recent]` items are accepted and each accepted one has
a strictly larger timestamp than every recent item that is not accepted. -/
theorem C8_theorem (r : Rules) (ref : Datetime) (objs : List Item) (x : Item)
    (hz : (tdOf ref x).hours = 0) :
    (∀ c n, ¬ x ∈ bucketItems r ref c n objs) ∧
      (x ∈ filterAccepted r ref objs ↔
        x ∈ recentAccepted r (recentFilter r ref objs)) ∧
      (r.recent = 0 → ¬ x ∈ filterAccepted r ref objs) ∧
      (KeyInj objs → r.recent.toNat ≤ (recentFilter r ref objs).length →
        (recentAccepted r (recentFilter r ref objs)).length = r.recent.toNat ∧
          ∀ a ∈ recentAccepted r (recentFilter r ref objs),
            ∀ y ∈ recentFilter r ref objs,
              ¬ y ∈ recentAccepted r (recentFilter r ref objs) →
                epochSeconds y.moddate < epochSeconds a.moddate) := by
  refine ⟨?_, recent_mem_accepted_iff hz, ?_, ?_⟩
  · intro c n hmem
    have hb := (List.mem_filter.mp hmem).2
    simp only [bucketB, catPred, Bool.and_eq_true, decide_eq_true_eq] at hb
    exact hb.1.1 hz
  · intro hr0 hacc
    have hrec := (recent_mem_accepted_iff hz).mp hacc
    have : recentFilter r ref objs = [] := by
      unfold recentFilter
      rw [if_neg (by omega)]
    rw [this] at hrec
    exact absurd (recentAccepted_sub hrec) (List.not_mem_nil x)
  · intro hinj hlen
    have hinj' : KeyInj (recentFilter r ref objs) :=
      keyInj_of_sub hinj (fun y hy => recentFilter_sub hy)
    exact ⟨recentAccepted_length hlen, recentAccepted_newest hinj'⟩

/-- Witness for claim C8 on the concrete recent-category scenario: the
1-minute-old item is recent, lies in no bucket, and with `policy[recent]=2`
the accepted recent items are the two newest of the three. -/
theorem C8_witness :
    (∀ c n, ¬ (⟨1, ⟨2016, 12, 31, 12, 34, 0⟩⟩ : Item) ∈
      bucketItems rulesR refR c n itemsR) ∧
      ((⟨1, ⟨2016, 12, 31, 12, 34, 0⟩⟩ : Item) ∈ filterAccepted rulesR refR itemsR ↔
        (⟨1, ⟨2016, 12, 31, 12, 34, 0⟩⟩ : Item) ∈
          recentAccepted rulesR (recentFilter rulesR refR itemsR)) ∧
      (rulesR.recent = 0 →
        ¬ (⟨1, ⟨2016, 12, 31, 12, 34, 0⟩⟩ : Item) ∈ filterAccepted rulesR refR itemsR) ∧
      (KeyInj itemsR → rulesR.recent.toNat ≤ (recentFilter rulesR refR itemsR).length →
        (recentAccepted rulesR (recentFilter rulesR refR itemsR)).length =
            rulesR.recent.toNat ∧
          ∀ a ∈ recentAccepted rulesR (recentFilter rulesR refR itemsR),
            ∀ y ∈ recentFilter rulesR refR itemsR,
              ¬ y ∈ recentAccepted rulesR (recentFilter rulesR refR itemsR) →
                epochSeconds y.moddate < epochSeconds a.moddate) :=
  C8_theorem rulesR refR itemsR ⟨1, ⟨2016, 12, 31, 12, 34, 0⟩⟩ (by decide)

/-! ### Claim C9 -/

/-- Reference time 2016-01-01 01:00 for the bucket-survivor counterexample. -/
def refC9 : Datetime := ⟨2016, 1, 1, 1, 0, 0⟩

/-- An item 90 minutes old: hours age 2, days age 1. -/
def aC9 : Item := ⟨1, ⟨2015, 12, 31, 23, 30, 0⟩⟩

/-- An item 150 minutes old: hours age 3, days age 1. -/
def bC9 : Item := ⟨2, ⟨2015, 12, 31, 22, 30, 0⟩⟩

/-- The policy `{days: 1, hours: 3}` after validation. -/
def rulesC9 : Rules := ⟨0, 0, 0, 1, 3, 0⟩

/-- Claim C9, counterexample: the claim asserts that all items of a bucket
other than its newest one are rejected.  Under `{days: 1, hours: 3}` both
items share the bucket `(days, 1)` whose survivor is the newer item, yet the
older item is nevertheless accepted — it also occupies the bucket
`(hours, 3)` and survives there. -/
theorem C9_counterexample :
    bucketItems rulesC9 refC9 Cat.days 1 [aC9, bC9] = [aC9, bC9] ∧
      bucketNewest rulesC9 refC9 Cat.days 1 [aC9, bC9] = some aC9 ∧
      bC9 ≠ aC9 ∧
      bC9 ∈ filterAccepted rulesC9 refC9 [aC9, bC9] := by
  decide

/-- Claim C9, amended: from every populated non-recent bucket `(c, n)`
exactly one item is accepted on the bucket's account — the one holding the
maximum timestamp (ties broken deterministically towards the item latest in
input order by the stable sort), and the survivor is a function of the
inputs, hence identical across repeated calls; the other items of the bucket
are rejected unless another bucket (or the recent rule) accepts them. -/
theorem C9_theorem (r : Rules) (ref : Datetime) (objs : List Item) (c : Cat)
    (n : Int) (hne : bucketItems r ref c n objs ≠ []) :
    ∃ s, bucketNewest r ref c n objs = some s ∧
      s ∈ bucketItems r ref c n objs ∧
      (∀ y ∈ bucketItems r ref c n objs, modLe y s) ∧
      s ∈ filterAccepted r ref objs := by
  rcases newest_exists hne with ⟨s, hs⟩
  have hspec := newest_spec hs
  exact ⟨s, hs, hspec.1, hspec.2, survivor_mem_accepted hne hs⟩

/-- Witness for the amended claim C9 at the bucket `(days, 1)` of the
two-item scenario. -/
theorem C9_witness :
    ∃ s, bucketNewest rulesC9 refC9 Cat.days 1 [aC9, bC9] = some s ∧
      s ∈ bucketItems rulesC9 refC9 Cat.days 1 [aC9, bC9] ∧
      (∀ y ∈ bucketItems rulesC9 refC9 Cat.days 1 [aC9, bC9], modLe y s) ∧
      s ∈ filterAccepted rulesC9 refC9 [aC9, bC9] :=
  C9_theorem rulesC9 refC9 [aC9, bC9] Cat.days 1 (by decide)

/-! ### Claim C10 -/

/-- Claim C10: on every successful `filter` call the accepted output is
returned sorted in ascending order of item timestamp. -/
theorem C10_theorem (r : Rules) (ref : Datetime) (objs acc rej : List Item)
    (h : TimeFilter.filter r ref objs = Except.ok (acc, rej)) :
    List.Sorted modLe acc := by
  unfold TimeFilter.filter at h
  by_cases hall : objs.all (goodItem ref) = true
  · rw [if_pos hall] at h
    cases h
    exact sortByMod_sorted _
  · rw [if_neg hall] at h
    exact absurd h (by simp)

/-- Witness for claim C10 on the concrete recent-category scenario. -/
theorem C10_witness : List.Sorted modLe (filterAccepted rulesR refR itemsR) :=
  C10_theorem rulesR refR itemsR (filterAccepted rulesR refR itemsR)
    (filterRejected rulesR refR itemsR) rfl
